import Mathlib

/-!
Verification of the ACR release plugin (Go sources `plugin.go`, `client.go`).

Shallow embedding conventions:
* Go strings are Lean `String`s; the Go standard-library string helpers used by
  the sources (`strings.ReplaceAll`, `strings.Contains`, `strings.HasSuffix`)
  are modelled on the underlying character lists (`String.data`).
* External processes (az / docker invocations) are modelled by explicit
  invocation traces plus an environment that decides each invocation's outcome.
* Fallible Go functions returning `error` become `Except String`.

All definitions are translated from the source files; theorem doc comments
name the claim each theorem settles.
-/

namespace ACR

/-- Model of Go `strings.ReplaceAll s pat rep` on character lists: scan left
to right, replacing each non-overlapping occurrence of `pat`, without
rescanning the replacement text.  The extra fuel argument (always called with
at least the scanned list's length, under which it never runs out) keeps the
recursion structural.  All call sites in the sources use non-empty literal
patterns; for an empty pattern this model returns the string unchanged
(Go would interleave the replacement, a case the program never exercises). -/
def replaceAllGo (pat rep : List Char) : Nat → List Char → List Char
  | 0, s => s
  | _ + 1, [] => []
  | fuel + 1, c :: rest =>
    if pat ≠ [] ∧ pat <+: (c :: rest) then
      rep ++ replaceAllGo pat rep fuel ((c :: rest).drop pat.length)
    else
      c :: replaceAllGo pat rep fuel rest

/-- Go `strings.ReplaceAll`. -/
def goReplaceAll (s old new : String) : String :=
  ⟨replaceAllGo old.data new.data s.data.length s.data⟩

theorem replaceAllGo_nil (pat rep : List Char) (fuel : Nat) :
    replaceAllGo pat rep fuel [] = [] := by
  cases fuel <;> rfl

/-- The scan is fuel-irrelevant as long as the fuel covers the list. -/
theorem replaceAllGo_fuel (pat rep : List Char) :
    ∀ f₁ f₂ s, s.length ≤ f₁ → s.length ≤ f₂ →
      replaceAllGo pat rep f₁ s = replaceAllGo pat rep f₂ s := by
  intro f₁
  induction f₁ with
  | zero =>
    intro f₂ s h1 _
    have hs : s = [] := List.length_eq_zero.mp (Nat.le_zero.mp h1)
    subst hs
    rw [replaceAllGo_nil, replaceAllGo_nil]
  | succ f ih =>
    intro f₂ s h1 h2
    cases s with
    | nil => rw [replaceAllGo_nil, replaceAllGo_nil]
    | cons c rest =>
      cases f₂ with
      | zero => simp at h2
      | succ f₂' =>
        by_cases hc : pat ≠ [] ∧ pat <+: (c :: rest)
        · have hp : 0 < pat.length := List.length_pos.mpr hc.1
          simp only [replaceAllGo, if_pos hc]
          congr 1
          apply ih
          · simp only [List.length_drop, List.length_cons]
            simp only [List.length_cons] at h1
            omega
          · simp only [List.length_drop, List.length_cons]
            simp only [List.length_cons] at h2
            omega
        · simp only [replaceAllGo, if_neg hc]
          congr 1
          apply ih
          · simp only [List.length_cons] at h1
            omega
          · simp only [List.length_cons] at h2
            omega

/-- When no occurrence of `pat` starts within the region `s₁`, the scan
copies `s₁` verbatim and continues on `s₂`. -/
theorem replaceAllGo_copy (pat rep : List Char) :
    ∀ s₁ s₂ fuel, (s₁ ++ s₂).length ≤ fuel →
      (∀ j, j < s₁.length → ¬ pat <+: ((s₁ ++ s₂).drop j)) →
      replaceAllGo pat rep fuel (s₁ ++ s₂)
        = s₁ ++ replaceAllGo pat rep (fuel - s₁.length) s₂ := by
  intro s₁
  induction s₁ with
  | nil => intro s₂ fuel _ _; simp
  | cons c s₁' ih =>
    intro s₂ fuel hf h
    cases fuel with
    | zero => simp at hf
    | succ f =>
      have h0 : ¬ (pat <+: c :: (s₁' ++ s₂)) := by
        have := h 0 (by simp)
        simpa using this
      simp only [List.cons_append, replaceAllGo]
      rw [if_neg (fun hc => h0 hc.2)]
      simp only [List.append_eq]
      have ihs : replaceAllGo pat rep f (s₁' ++ s₂)
          = s₁' ++ replaceAllGo pat rep (f - s₁'.length) s₂ := by
        apply ih
        · simp only [List.cons_append, List.length_cons] at hf
          simp only [List.length_append]
          simp only [List.length_append] at hf
          omega
        · intro j hj
          have := h (j + 1) (by simp only [List.length_cons]; omega)
          simpa [List.cons_append] using this
      rw [ihs]
      simp only [List.length_cons, Nat.add_sub_add_right]

/-- When `pat` occurs nowhere in `s`, the scan leaves `s` unchanged. -/
theorem replaceAllGo_no_match (pat rep s : List Char) (fuel : Nat)
    (hf : s.length ≤ fuel)
    (h : ∀ j, j < s.length → ¬ pat <+: s.drop j) :
    replaceAllGo pat rep fuel s = s := by
  have := replaceAllGo_copy pat rep s [] fuel (by simpa using hf) (by simpa using h)
  simpa [replaceAllGo_nil] using this

/-- Replacing a non-empty pattern inside exactly itself yields the
replacement. -/
theorem replaceAllGo_self (pat rep : List Char) (hp : pat ≠ []) (fuel : Nat)
    (hf : pat.length ≤ fuel) :
    replaceAllGo pat rep fuel pat = rep := by
  cases pat with
  | nil => exact absurd rfl hp
  | cons c p' =>
    cases fuel with
    | zero => simp at hf
    | succ f =>
      simp only [replaceAllGo]
      rw [if_pos ⟨hp, ⟨[], List.append_nil _⟩⟩, List.drop_length, replaceAllGo_nil,
        List.append_nil]

theorem goReplaceAll_self (old new : String) (h : old.data ≠ []) :
    goReplaceAll old old new = new := by
  unfold goReplaceAll
  rw [replaceAllGo_self old.data new.data h old.data.length (le_refl _)]

theorem goReplaceAll_no_match (s old new : String)
    (h : ∀ j, j < s.data.length → ¬ old.data <+: s.data.drop j) :
    goReplaceAll s old new = s := by
  unfold goReplaceAll
  rw [replaceAllGo_no_match old.data new.data s.data s.data.length (le_refl _) h]

theorem pref_take {p l : List Char} (h : p <+: l) : p = l.take p.length := by
  obtain ⟨r, hr⟩ := h
  rw [← hr, List.take_left]

theorem take_pref (n : Nat) (l : List Char) : l.take n <+: l :=
  ⟨l.drop n, List.take_append_drop n l⟩

theorem pref_of_pref_le {p q l : List Char} (hp : p <+: l) (hq : q <+: l)
    (hle : p.length ≤ q.length) : p <+: q := by
  have h3 : q.take p.length = p := by
    rw [pref_take hq, List.take_take, inf_eq_left.mpr hle]
    exact (pref_take hp).symm
  exact h3 ▸ take_pref p.length q

theorem pref_split_le {p x y : List Char} (h : p <+: x ++ y)
    (hle : p.length ≤ x.length) : p <+: x :=
  pref_of_pref_le h ⟨y, rfl⟩ hle

theorem pref_split_gt {p x y : List Char} (h : p <+: x ++ y)
    (hlt : x.length < p.length) : x <+: p ∧ p.drop x.length <+: y := by
  have hx : x <+: p := pref_of_pref_le ⟨y, rfl⟩ h (Nat.le_of_lt hlt)
  refine ⟨hx, ?_⟩
  obtain ⟨w, hw⟩ := hx
  obtain ⟨r, hr⟩ := h
  have hdrop : p.drop x.length = w := by rw [← hw, List.drop_left]
  rw [hdrop]
  have hxy : x ++ (w ++ r) = x ++ y := by rw [← List.append_assoc, hw, hr]
  exact ⟨r, List.append_cancel_left hxy⟩

/-- Core survival lemma: an occurrence of `t` in `s` survives replace-all of
a pattern `pat` that cannot overlap it — `pat` neither occurs inside `t` nor
vice versa, no proper non-empty suffix of `pat` is a prefix of `t`, and no
proper non-empty suffix of `t` is a prefix of `pat`.  The replacement text is
arbitrary. -/
theorem replaceAllGo_keeps (pat t rep : List Char)
    (h1 : ¬ pat <:+: t) (h2 : ¬ t <:+: pat)
    (h3 : ∀ i, i < pat.length → 0 < i → ¬ pat.drop i <+: t)
    (h4 : ∀ j, j < t.length → 0 < j → ¬ t.drop j <+: pat) :
    ∀ fuel s, s.length ≤ fuel → t <:+: s → t <:+: replaceAllGo pat rep fuel s := by
  have hpne : pat ≠ [] := fun hp => h1 (hp ▸ ⟨[], t, by simp⟩)
  intro fuel
  induction fuel with
  | zero => intro s _ hinf; exact hinf
  | succ f ih =>
    intro s hlen hinf
    have hex : ∃ u v, u ++ t ++ v = s := hinf
    obtain ⟨a, b, hab⟩ := hex
    cases s with
    | nil => exact hinf
    | cons c s' =>
      by_cases hcond : pat ≠ [] ∧ pat <+: (c :: s')
      · obtain ⟨-, hp⟩ := hcond
        cases a with
        | nil =>
          exfalso
          have hts : t ++ b = c :: s' := by simpa using hab
          have hp' : pat <+: t ++ b := hts ▸ hp
          rcases le_or_lt pat.length t.length with hle | hlt
          · obtain ⟨w, hw⟩ := pref_split_le hp' hle
            exact h1 ⟨[], w, by simpa using hw⟩
          · obtain ⟨w, hw⟩ := pref_of_pref_le ⟨b, rfl⟩ hp' (Nat.le_of_lt hlt)
            exact h2 ⟨[], w, by simpa using hw⟩
        | cons d a' =>
          have hab' : (d :: a') ++ (t ++ b) = c :: s' := by
            rw [← List.append_assoc]; exact hab
          rcases le_or_lt pat.length (d :: a').length with hle | hlt
          · rw [show replaceAllGo pat rep (f + 1) (c :: s')
                = rep ++ replaceAllGo pat rep f ((c :: s').drop pat.length) from by
              simp only [replaceAllGo]
              rw [if_pos (show pat ≠ [] ∧ pat <+: c :: s' from ⟨hpne, hp⟩)]]
            have hsplit : (c :: s').drop pat.length
                = (d :: a').drop pat.length ++ (t ++ b) := by
              rw [← hab', List.drop_append_eq_append_drop,
                Nat.sub_eq_zero_of_le hle, List.drop_zero]
            have hrec : t <:+: replaceAllGo pat rep f ((c :: s').drop pat.length) := by
              apply ih
              · have hplen : 0 < pat.length := List.length_pos.mpr hpne
                simp only [List.length_drop, List.length_cons]
                simp only [List.length_cons] at hlen
                omega
              · rw [hsplit]
                exact ⟨(d :: a').drop pat.length, b, by rw [List.append_assoc]⟩
            obtain ⟨u, v, huv⟩ := hrec
            exact ⟨rep ++ u, v, by rw [List.append_assoc, List.append_assoc, ← List.append_assoc u, huv]⟩
          · exfalso
            have hp' : pat <+: (d :: a') ++ (t ++ b) := by rw [hab']; exact hp
            have hq : pat.drop (d :: a').length <+: t ++ b := (pref_split_gt hp' hlt).2
            rcases le_or_lt (pat.drop (d :: a').length).length t.length with hle2 | hlt2
            · exact h3 (d :: a').length hlt (by simp) (pref_split_le hq hle2)
            · obtain ⟨w, hw⟩ := pref_of_pref_le ⟨b, rfl⟩ hq (Nat.le_of_lt hlt2)
              refine h2 ⟨pat.take (d :: a').length, w, ?_⟩
              rw [List.append_assoc, hw, List.take_append_drop]
      · cases a with
        | nil =>
          have hts : c :: s' = t ++ b := by simpa using hab.symm
          rw [hts]
          have hlen2 : (t ++ b).length ≤ f + 1 := hts ▸ hlen
          have hside : ∀ j, j < t.length → ¬ pat <+: (t ++ b).drop j := by
            intro j hj hpj
            have hdropj : (t ++ b).drop j = t.drop j ++ b := by
              rw [List.drop_append_eq_append_drop,
                Nat.sub_eq_zero_of_le (Nat.le_of_lt hj), List.drop_zero]
            rw [hdropj] at hpj
            rcases le_or_lt pat.length (t.drop j).length with hle3 | hlt3
            · obtain ⟨w, hw⟩ := pref_split_le hpj hle3
              refine h1 ⟨t.take j, w, ?_⟩
              rw [List.append_assoc, hw, List.take_append_drop]
            · have hdp : t.drop j <+: pat :=
                pref_of_pref_le ⟨b, rfl⟩ hpj (Nat.le_of_lt hlt3)
              rcases Nat.eq_zero_or_pos j with hj0 | hjpos
              · subst hj0
                simp only [List.drop_zero] at hdp
                obtain ⟨w, hw⟩ := hdp
                exact h2 ⟨[], w, by simpa using hw⟩
              · exact h4 j hj hjpos hdp
          rw [replaceAllGo_copy pat rep t b (f + 1) hlen2 hside]
          exact ⟨[], replaceAllGo pat rep (f + 1 - t.length) b, by simp⟩
        | cons d a' =>
          rw [show replaceAllGo pat rep (f + 1) (c :: s')
              = c :: replaceAllGo pat rep f s' from by
            simp only [replaceAllGo, if_neg hcond]]
          have hs' : a' ++ t ++ b = s' := (List.cons.inj (by simpa using hab)).2
          have hrec : t <:+: replaceAllGo pat rep f s' := by
            apply ih
            · simp only [List.length_cons] at hlen; omega
            · exact ⟨a', b, hs'⟩
          obtain ⟨u, v, huv⟩ := hrec
          exact ⟨c :: u, v, by simp only [List.cons_append]; rw [huv]⟩

/-- String-level corollary: an occurrence of `t` inside `s` survives
`goReplaceAll s old new` when `old` cannot overlap `t`. -/
theorem goReplaceAll_keeps (s old new : String) (t : List Char)
    (h1 : ¬ old.data <:+: t) (h2 : ¬ t <:+: old.data)
    (h3 : ∀ i, i < old.data.length → 0 < i → ¬ old.data.drop i <+: t)
    (h4 : ∀ j, j < t.length → 0 < j → ¬ t.drop j <+: old.data)
    (h : t <:+: s.data) : t <:+: (goReplaceAll s old new).data :=
  replaceAllGo_keeps old.data t new.data h1 h2 h3 h4 s.data.length s.data (le_refl _) h

/-- Go `strings.Contains` (substring containment). -/
def goContains (s sub : String) : Bool :=
  decide (sub.data <:+: s.data)

/-- Go `strings.HasSuffix`. -/
def goHasSuffix (s suff : String) : Bool :=
  decide (suff.data <:+ s.data)

/-- From `client.go`, `GetRegistryURL`: return the registry name unchanged when it
already ends in `.azurecr.io`, otherwise append `.azurecr.io`
(Go: `fmt.Sprintf("%s.azurecr.io", registry)`). -/
def GetRegistryURL (registry : String) : String :=
  if goHasSuffix registry ".azurecr.io" then registry
  else registry ++ ".azurecr.io"

/-- The release-context record consumed from the host SDK
(`plugin.ReleaseContext`); only the fields read by `plugin.go` are modelled. -/
structure ReleaseContext where
  version : String
  previousVersion : String
  tagName : String
  branch : String
  releaseType : String
deriving DecidableEq, Repr

/-- The four sequential placeholder substitutions of `processTemplate`
(braces in the placeholder literals are written with `\x7b`/`\x7d` escapes). -/
def substTemplateVars (tmpl : String) (ctx : ReleaseContext) : String :=
  goReplaceAll
    (goReplaceAll
      (goReplaceAll
        (goReplaceAll tmpl "\x7b\x7b.Version\x7d\x7d" ctx.version)
        "\x7b\x7b.PreviousVersion\x7d\x7d" ctx.previousVersion)
      "\x7b\x7b.TagName\x7d\x7d" ctx.tagName)
    "\x7b\x7b.ReleaseType\x7d\x7d" ctx.releaseType

/-- From `plugin.go`, `processTemplate`: a template containing the conditional
marker `{{if` resolves to the empty string; otherwise the version,
previous-version, tag-name and release-type placeholders are substituted, and,
when the context's branch is non-empty, the branch placeholder is substituted
with `/` replaced by `-` in the branch name. -/
def processTemplate (tmpl : String) (ctx : ReleaseContext) : String :=
  if goContains tmpl "\x7b\x7bif" then ""
  else if ctx.branch ≠ "" then
    goReplaceAll (substTemplateVars tmpl ctx) "\x7b\x7b.Branch\x7d\x7d"
      (goReplaceAll ctx.branch "/" "-")
  else substTemplateVars tmpl ctx

/-- From `plugin.go`, `processTags`: resolve each template in order, keeping only
non-empty results. -/
def processTags : List String → ReleaseContext → List String
  | [], _ => []
  | tag :: rest, ctx =>
    if processTemplate tag ctx ≠ "" then
      processTemplate tag ctx :: processTags rest ctx
    else processTags rest ctx

theorem processTags_eq_filter (ts : List String) (ctx : ReleaseContext) :
    processTags ts ctx
      = (ts.map (fun t => processTemplate t ctx)).filter (fun s => decide (s ≠ "")) := by
  induction ts with
  | nil => rfl
  | cons t rest ih =>
    by_cases h : processTemplate t ctx = ""
    · simp [processTags, h, ih]
    · simp [processTags, h, ih]

theorem processTags_append (ts₁ ts₂ : List String) (ctx : ReleaseContext) :
    processTags (ts₁ ++ ts₂) ctx = processTags ts₁ ctx ++ processTags ts₂ ctx := by
  simp [processTags_eq_filter]

theorem processTags_no_empty (ts : List String) (ctx : ReleaseContext) :
    (processTags ts ctx).filter (fun s => decide (s ≠ "")) = processTags ts ctx := by
  rw [processTags_eq_filter, List.filter_filter]
  simp

/-- Claim C4: the registry endpoint resolver is idempotent;
`GetRegistryURL (GetRegistryURL r) = GetRegistryURL r` for every registry
name `r` (returning `r` unchanged when it already ends with the canonical
`.azurecr.io` suffix, and appending the suffix otherwise). -/
theorem getRegistryURL_idempotent (r : String) :
    GetRegistryURL (GetRegistryURL r) = GetRegistryURL r := by
  unfold GetRegistryURL
  by_cases h : goHasSuffix r ".azurecr.io" = true
  · simp [h]
  · have hs : goHasSuffix (r ++ ".azurecr.io") ".azurecr.io" = true := by
      unfold goHasSuffix
      rw [decide_eq_true_iff, String.data_append]
      exact ⟨r.data, rfl⟩
    simp [h, hs]

/-- Claim C5: tag resolution returns at most as many tags as it was given
templates; the output is exactly the order-preserving filter of the
per-template resolutions that keeps the non-empty results (hence surviving
results appear in the relative order of the templates that produced them,
and every template resolving to the empty string is dropped). -/
theorem processTags_length_order (ts : List String) (ctx : ReleaseContext) :
    (processTags ts ctx).length ≤ ts.length ∧
    processTags ts ctx
      = (ts.map (fun t => processTemplate t ctx)).filter (fun s => decide (s ≠ "")) ∧
    (processTags ts ctx).Sublist (ts.map (fun t => processTemplate t ctx)) := by
  refine ⟨?_, processTags_eq_filter ts ctx, ?_⟩
  · calc (processTags ts ctx).length
        = ((ts.map (fun t => processTemplate t ctx)).filter
            (fun s => decide (s ≠ ""))).length := by rw [processTags_eq_filter]
      _ ≤ (ts.map (fun t => processTemplate t ctx)).length :=
          List.length_filter_le _ _
      _ = ts.length := List.length_map _ _
  · rw [processTags_eq_filter]
    exact List.filter_sublist _

/-- Claim C6: a template containing the conditional-construct marker `{{if`
resolves to the empty string and is dropped entirely from the resolved-tag
output, whatever else it contains; resolution is a total function, so this
is not an error. -/
theorem processTemplate_conditional_dropped (tmpl : String) (ctx : ReleaseContext)
    (h : goContains tmpl "\x7b\x7bif" = true) :
    processTemplate tmpl ctx = "" ∧
    ∀ ts₁ ts₂ : List String,
      processTags (ts₁ ++ tmpl :: ts₂) ctx = processTags (ts₁ ++ ts₂) ctx := by
  have hempty : processTemplate tmpl ctx = "" := by
    simp [processTemplate, h]
  refine ⟨hempty, fun ts₁ ts₂ => ?_⟩
  rw [processTags_append, processTags_append]
  have : processTags (tmpl :: ts₂) ctx = processTags ts₂ ctx := by
    simp [processTags, hempty]
  rw [this]

/-- Witness for C6 at the conditional template from the repository's tests. -/
theorem processTemplate_conditional_dropped_witness :
    processTemplate "\x7b\x7bif .IsPrerelease\x7d\x7dbeta\x7b\x7bend\x7d\x7d"
        ⟨"1.0.0", "", "", "", ""⟩ = "" ∧
    ∀ ts₁ ts₂ : List String,
      processTags (ts₁ ++ "\x7b\x7bif .IsPrerelease\x7d\x7dbeta\x7b\x7bend\x7d\x7d" :: ts₂)
          ⟨"1.0.0", "", "", "", ""⟩
        = processTags (ts₁ ++ ts₂) ⟨"1.0.0", "", "", "", ""⟩ :=
  processTemplate_conditional_dropped _ _ (by decide)

/-! ## Configuration parsing and validation (`plugin.go` `parseConfig`, `Validate`) -/

/-- The parsed plugin configuration (`plugin.go` `Config`). -/
structure Config where
  registry : String
  repository : String
  image : String
  authMethod : String
  clientID : String
  clientSecret : String
  tenantID : String
  username : String
  password : String
  sourceImage : String
  tags : List String
  dryRun : Bool
deriving DecidableEq, Repr

/-- The nested `auth` block of the raw configuration map. -/
structure RawAuth where
  method : Option String
  clientId : Option String
  clientSecret : Option String
  tenantId : Option String
  username : Option String
  password : Option String
deriving DecidableEq, Repr

/-- The raw host-supplied configuration map, restricted to the keys
`parseConfig` reads; `none` models an absent key.  The SDK's `ConfigParser`
getters (external collaborators) are modelled as returning the stored value
when the key is present and the stated default otherwise (no environment
variables are set in this model). -/
structure RawConfig where
  registry : Option String
  repository : Option String
  image : Option String
  sourceImage : Option String
  tags : Option (List String)
  dryRun : Option Bool
  auth : Option RawAuth
deriving DecidableEq, Repr

/-- The raw configuration map with no keys set at all. -/
def emptyRawConfig : RawConfig :=
  { registry := none, repository := none, image := none, sourceImage := none,
    tags := none, dryRun := none, auth := none }

/-- From `plugin.go`, `parseConfig`: defaults are the empty string for string keys,
`false` for `dry_run`, the single `{{.Version}}` template when the tag list is
absent or empty, and `azure_cli` for the auth method (also when the `auth`
block is missing entirely). -/
def parseConfig (raw : RawConfig) : Config :=
  let tags0 := raw.tags.getD []
  let tags := if tags0.isEmpty then ["\x7b\x7b.Version\x7d\x7d"] else tags0
  let auth := raw.auth
  { registry := raw.registry.getD ""
    repository := raw.repository.getD ""
    image := raw.image.getD ""
    authMethod := match auth with
      | some a => a.method.getD "azure_cli"
      | none => "azure_cli"
    clientID := match auth with
      | some a => a.clientId.getD ""
      | none => ""
    clientSecret := match auth with
      | some a => a.clientSecret.getD ""
      | none => ""
    tenantID := match auth with
      | some a => a.tenantId.getD ""
      | none => ""
    username := match auth with
      | some a => a.username.getD ""
      | none => ""
    password := match auth with
      | some a => a.password.getD ""
      | none => ""
    sourceImage := raw.sourceImage.getD ""
    tags := tags
    dryRun := raw.dryRun.getD false }

/-- From `plugin.go`, `Validate`: parse the raw map, then collect every applicable
field-scoped error (the SDK's `ValidationBuilder` is modelled as appending to
a list of field/message pairs and returning them all together). -/
def Validate (raw : RawConfig) : List (String × String) :=
  let cfg := parseConfig raw
  let errs := if cfg.registry = "" then
      [("registry", "ACR registry name is required")] else []
  let errs := errs ++ (if cfg.image = "" then
      [("image", "image name is required")] else [])
  let errs := errs ++ (if cfg.sourceImage = "" then
      [("source_image", "source image is required")] else [])
  let validMethods := ["azure_cli", "service_principal", "admin", "managed_identity", ""]
  let isValidMethod := validMethods.any (fun m => cfg.authMethod = m)
  let errs := errs ++ (if !isValidMethod then
      [("auth.method",
        "auth method must be \x27azure_cli\x27, \x27service_principal\x27, \x27admin\x27, or \x27managed_identity\x27")]
    else [])
  let errs := errs ++
    (if cfg.authMethod = "service_principal" ∧
        (cfg.clientID = "" ∨ cfg.clientSecret = "" ∨ cfg.tenantID = "") then
      [("auth", "service principal requires client_id, client_secret, and tenant_id")]
    else [])
  let errs := errs ++
    (if cfg.authMethod = "admin" ∧ (cfg.username = "" ∨ cfg.password = "") then
      [("auth", "admin auth requires username and password")]
    else [])
  errs

/-- Counterexample to claim C10 as stated: a template that contains the
branch placeholder but also the conditional marker `{{if` is dropped
entirely by resolution (with the context's branch empty), instead of being
kept with the literal `{{.Branch}}` text. -/
theorem branch_conditional_counterexample :
    goContains "\x7b\x7bif x\x7d\x7d\x7b\x7b.Branch\x7d\x7d" "\x7b\x7b.Branch\x7d\x7d" = true ∧
    (⟨"1.0.0", "", "", "", ""⟩ : ReleaseContext).branch = "" ∧
    processTags ["\x7b\x7bif x\x7d\x7d\x7b\x7b.Branch\x7d\x7d"] ⟨"1.0.0", "", "", "", ""⟩ = [] := by
  refine ⟨by decide, rfl, by decide⟩

/-- Claim C10, amended: when the release context's branch is empty, the
branch placeholder is not substituted: every template that contains
`{{.Branch}}` and does not contain the conditional marker `{{if` resolves to
a tag that still contains the literal `{{.Branch}}`, is therefore non-empty,
and is kept at its position in the output sequence. -/
theorem branch_placeholder_preserved (tmpl : String) (ctx : ReleaseContext)
    (hb : ctx.branch = "")
    (hif : goContains tmpl "\x7b\x7bif" = false)
    (hbr : goContains tmpl "\x7b\x7b.Branch\x7d\x7d" = true) :
    goContains (processTemplate tmpl ctx) "\x7b\x7b.Branch\x7d\x7d" = true ∧
    processTemplate tmpl ctx ≠ "" ∧
    ∀ ts₁ ts₂ : List String,
      processTags (ts₁ ++ tmpl :: ts₂) ctx
        = processTags ts₁ ctx ++ processTemplate tmpl ctx :: processTags ts₂ ctx := by
  have hpt : processTemplate tmpl ctx = substTemplateVars tmpl ctx := by
    unfold processTemplate
    rw [if_neg (by simp [hif]), if_neg (by simp [hb])]
  have h0 : "\x7b\x7b.Branch\x7d\x7d".data <:+: tmpl.data := of_decide_eq_true hbr
  have hsub : "\x7b\x7b.Branch\x7d\x7d".data <:+: (substTemplateVars tmpl ctx).data := by
    unfold substTemplateVars
    refine goReplaceAll_keeps _ _ _ _ (by decide) (by decide) (by decide) (by decide) ?_
    refine goReplaceAll_keeps _ _ _ _ (by decide) (by decide) (by decide) (by decide) ?_
    refine goReplaceAll_keeps _ _ _ _ (by decide) (by decide) (by decide) (by decide) ?_
    exact goReplaceAll_keeps _ _ _ _ (by decide) (by decide) (by decide) (by decide) h0
  have hcontains : goContains (processTemplate tmpl ctx) "\x7b\x7b.Branch\x7d\x7d" = true := by
    rw [hpt]
    exact decide_eq_true hsub
  have hne : processTemplate tmpl ctx ≠ "" := by
    rw [hpt]
    intro he
    rw [he] at hsub
    have huv : ∃ u v, u ++ "\x7b\x7b.Branch\x7d\x7d".data ++ v = [] := hsub
    obtain ⟨u, v, huv⟩ := huv
    obtain ⟨h12, -⟩ := List.append_eq_nil.mp huv
    obtain ⟨-, ht0⟩ := List.append_eq_nil.mp h12
    exact absurd ht0 (by decide)
  refine ⟨hcontains, hne, fun ts₁ ts₂ => ?_⟩
  rw [processTags_append]
  congr 1
  simp [processTags, hne]

/-- Witness for the amended C10 at a concrete template mixing the branch
placeholder with surrounding text and a version placeholder. -/
theorem branch_placeholder_preserved_witness :
    (⟨"1.0.0", "", "", "", ""⟩ : ReleaseContext).branch = "" ∧
    goContains "v\x7b\x7b.Version\x7d\x7d-\x7b\x7b.Branch\x7d\x7d" "\x7b\x7bif" = false ∧
    goContains "v\x7b\x7b.Version\x7d\x7d-\x7b\x7b.Branch\x7d\x7d" "\x7b\x7b.Branch\x7d\x7d" = true ∧
    (goContains
        (processTemplate "v\x7b\x7b.Version\x7d\x7d-\x7b\x7b.Branch\x7d\x7d"
          ⟨"1.0.0", "", "", "", ""⟩) "\x7b\x7b.Branch\x7d\x7d" = true ∧
     processTemplate "v\x7b\x7b.Version\x7d\x7d-\x7b\x7b.Branch\x7d\x7d"
        ⟨"1.0.0", "", "", "", ""⟩ ≠ "" ∧
     ∀ ts₁ ts₂ : List String,
       processTags (ts₁ ++ "v\x7b\x7b.Version\x7d\x7d-\x7b\x7b.Branch\x7d\x7d" :: ts₂)
           ⟨"1.0.0", "", "", "", ""⟩
         = processTags ts₁ ⟨"1.0.0", "", "", "", ""⟩
             ++ processTemplate "v\x7b\x7b.Version\x7d\x7d-\x7b\x7b.Branch\x7d\x7d"
                  ⟨"1.0.0", "", "", "", ""⟩
               :: processTags ts₂ ⟨"1.0.0", "", "", "", ""⟩) :=
  ⟨rfl, by decide, by decide,
   branch_placeholder_preserved "v\x7b\x7b.Version\x7d\x7d-\x7b\x7b.Branch\x7d\x7d"
     ⟨"1.0.0", "", "", "", ""⟩ rfl (by decide) (by decide)⟩

/-- Counterexample to claim C3 as stated: the program's placeholder syntax is
`{{.Version}}`, so the template `{{version}}` is left unchanged by
resolution — it is a non-empty literal, kept verbatim — and the resolved
list is not `["2.3.1"]`. -/
theorem version_placeholder_counterexample :
    processTags ["\x7b\x7bversion\x7d\x7d"] ⟨"2.3.1", "", "", "", ""⟩
        = ["\x7b\x7bversion\x7d\x7d"] ∧
    processTags ["\x7b\x7bversion\x7d\x7d"] ⟨"2.3.1", "", "", "", ""⟩ ≠ ["2.3.1"] := by
  constructor <;> decide

/-- Claim C3, amended: with the placeholder spelled the way the program
recognizes it (`{{.Version}}`), resolving the tag-template list
`["{{.Version}}"]` against any release context whose version is `"2.3.1"`
returns exactly `["2.3.1"]`. -/
theorem processTags_version_placeholder (ctx : ReleaseContext)
    (hv : ctx.version = "2.3.1") :
    processTags ["\x7b\x7b.Version\x7d\x7d"] ctx = ["2.3.1"] := by
  have h1 : substTemplateVars "\x7b\x7b.Version\x7d\x7d" ctx = "2.3.1" := by
    unfold substTemplateVars
    rw [goReplaceAll_self "\x7b\x7b.Version\x7d\x7d" ctx.version (by decide), hv]
    rw [goReplaceAll_no_match "2.3.1" "\x7b\x7b.PreviousVersion\x7d\x7d"
      ctx.previousVersion (by decide)]
    rw [goReplaceAll_no_match "2.3.1" "\x7b\x7b.TagName\x7d\x7d" ctx.tagName (by decide)]
    rw [goReplaceAll_no_match "2.3.1" "\x7b\x7b.ReleaseType\x7d\x7d" ctx.releaseType (by decide)]
  have h2 : processTemplate "\x7b\x7b.Version\x7d\x7d" ctx = "2.3.1" := by
    unfold processTemplate
    rw [if_neg (by decide)]
    by_cases hb : ctx.branch ≠ ""
    · rw [if_pos hb, h1]
      rw [goReplaceAll_no_match "2.3.1" "\x7b\x7b.Branch\x7d\x7d"
        (goReplaceAll ctx.branch "/" "-") (by decide)]
    · rw [if_neg hb, h1]
  simp only [processTags, h2]
  rw [if_pos (by decide : ("2.3.1" : String) ≠ "")]

/-- Witness for the amended C3 at the concrete context with version
`"2.3.1"` and all other fields empty. -/
theorem processTags_version_placeholder_witness :
    (⟨"2.3.1", "", "", "", ""⟩ : ReleaseContext).version = "2.3.1" ∧
    processTags ["\x7b\x7b.Version\x7d\x7d"] ⟨"2.3.1", "", "", "", ""⟩ = ["2.3.1"] :=
  ⟨rfl, processTags_version_placeholder ⟨"2.3.1", "", "", "", ""⟩ rfl⟩

/-- Claim C7: validating the empty configuration map yields exactly the three
field-scoped errors for the missing registry, image and source image,
collected together in one response; no auth-method error appears because the
method defaults to `azure_cli`. -/
theorem validate_empty_config :
    Validate emptyRawConfig
      = [("registry", "ACR registry name is required"),
         ("image", "image name is required"),
         ("source_image", "source image is required")] ∧
    (parseConfig emptyRawConfig).authMethod = "azure_cli" := by
  constructor <;> rfl

/-! ## Authentication handlers (`client.go`) -/

/-- Outcome of one external process invocation: whether it exited
successfully, and its combined standard output/error text. -/
structure CmdResult where
  ok : Bool
  output : String
deriving DecidableEq, Repr

/-- The cloud-CLI registry-login command issued by both `authenticateAzureCLI`
and `authenticateManagedIdentity` (argument vector of
`exec.CommandContext(ctx, "az", "acr", "login", "--name", c.registry)`). -/
def azAcrLoginCmd (registry : String) : List String :=
  ["az", "acr", "login", "--name", registry]

/-- From `client.go`, `authenticateAzureCLI`: run `az acr login --name <registry>`
under the environment `run`, returning the issued invocations and the
result; a failing invocation yields an error wrapping the combined output. -/
def authenticateAzureCLI (run : List String → CmdResult) (registry : String) :
    List (List String) × Except String Unit :=
  let r := run (azAcrLoginCmd registry)
  ([azAcrLoginCmd registry],
   if r.ok then Except.ok () else Except.error ("az acr login failed: " ++ r.output))

/-- From `client.go`, `authenticateManagedIdentity`: the same `az acr login` call,
but a failure message mentioning managed identity. -/
def authenticateManagedIdentity (run : List String → CmdResult) (registry : String) :
    List (List String) × Except String Unit :=
  let r := run (azAcrLoginCmd registry)
  ([azAcrLoginCmd registry],
   if r.ok then Except.ok ()
   else Except.error ("az acr login with managed identity failed: " ++ r.output))

/-- An environment in which every external invocation fails with empty
output. -/
def allFailRun : List String → CmdResult := fun _ => { ok := false, output := "" }

/-- Counterexample to claim C9 as stated: when the registry-login invocation
fails, the AzureCLI and ManagedIdentity handlers return different results
(their error messages differ), so the two handlers do not produce the same
result for every external-process outcome. -/
theorem managedIdentity_result_counterexample :
    (authenticateAzureCLI allFailRun "myregistry").2
      ≠ (authenticateManagedIdentity allFailRun "myregistry").2 := by
  simp only [authenticateAzureCLI, authenticateManagedIdentity, allFailRun, azAcrLoginCmd]
  intro h
  rw [if_neg (by decide), if_neg (by decide)] at h
  have := Except.error.inj h
  revert this
  decide

/-- Claim C9, amended: the ManagedIdentity handler issues exactly the same
cloud-CLI registry-login command as the AzureCLI handler for every registry
name, and produces the identical result whenever that invocation succeeds;
when it fails, both handlers fail, but their error messages differ. -/
theorem managedIdentity_same_invocation (run : List String → CmdResult) (registry : String) :
    (authenticateAzureCLI run registry).1 = (authenticateManagedIdentity run registry).1 ∧
    ((run (azAcrLoginCmd registry)).ok = true →
      authenticateAzureCLI run registry = authenticateManagedIdentity run registry) ∧
    ((run (azAcrLoginCmd registry)).ok = false →
      (∃ e, (authenticateAzureCLI run registry).2 = Except.error e) ∧
      (∃ e, (authenticateManagedIdentity run registry).2 = Except.error e)) := by
  refine ⟨rfl, fun hok => ?_, fun hko => ?_⟩
  · simp [authenticateAzureCLI, authenticateManagedIdentity, hok]
  · constructor
    · exact ⟨"az acr login failed: " ++ (run (azAcrLoginCmd registry)).output,
        by simp [authenticateAzureCLI, hko]⟩
    · exact ⟨"az acr login with managed identity failed: "
          ++ (run (azAcrLoginCmd registry)).output,
        by simp [authenticateManagedIdentity, hko]⟩

/-- An environment in which every external invocation succeeds. -/
def allOkRun : List String → CmdResult := fun _ => { ok := true, output := "" }

/-- Witness for the amended C9 in the all-success environment. -/
theorem managedIdentity_same_invocation_witness :
    (authenticateAzureCLI allOkRun "myregistry").1
        = (authenticateManagedIdentity allOkRun "myregistry").1 ∧
    ((allOkRun (azAcrLoginCmd "myregistry")).ok = true →
      authenticateAzureCLI allOkRun "myregistry"
        = authenticateManagedIdentity allOkRun "myregistry") ∧
    ((allOkRun (azAcrLoginCmd "myregistry")).ok = false →
      (∃ e, (authenticateAzureCLI allOkRun "myregistry").2 = Except.error e) ∧
      (∃ e, (authenticateManagedIdentity allOkRun "myregistry").2 = Except.error e)) :=
  managedIdentity_same_invocation allOkRun "myregistry"

/-- The docker-login invocation built by `client.go` `authenticateAdmin`:
its argument vector and the text piped to its standard input
(`cmd.Stdin = strings.NewReader(auth.Password)`). -/
structure DockerLoginInvocation where
  argv : List String
  stdinText : String
deriving DecidableEq, Repr

/-- From `client.go`, `authenticateAdmin`: `docker login <resolved host> -u
<username> --password-stdin`, with the password supplied on standard input. -/
def authenticateAdmin (registry username password : String) : DockerLoginInvocation :=
  { argv := ["docker", "login", GetRegistryURL registry, "-u", username, "--password-stdin"]
    stdinText := password }

/-- Claim C8: the admin-credentials login's argument vector contains the
resolved registry host and the username; the password is supplied only on
standard input and never flows into the argument vector — the vector is
identical for any two password values. -/
theorem authenticateAdmin_password_stdin (r u p p' : String) :
    (authenticateAdmin r u p).argv = (authenticateAdmin r u p').argv ∧
    GetRegistryURL r ∈ (authenticateAdmin r u p).argv ∧
    u ∈ (authenticateAdmin r u p).argv ∧
    (authenticateAdmin r u p).stdinText = p := by
  refine ⟨rfl, ?_, ?_, rfl⟩ <;> simp [authenticateAdmin]

/-! ## The publish orchestrator (`plugin.go` `Execute`)

External invocations are recorded as an ordered trace of events; an
environment decides the outcome of each invocation (authentication as a
whole, and each docker tag / docker push call). -/

/-- One external invocation performed by `Execute`. -/
inductive Event where
  | auth : Event
  | tagCmd : String → String → Event
  | pushCmd : String → Event
deriving DecidableEq, Repr

/-- Outcomes of the external invocations `Execute` can perform. -/
structure ExecEnv where
  authOk : Bool
  tagOk : String → String → Bool
  pushOk : String → Bool

/-- The parts of `plugin.ExecuteRequest` that `Execute` reads besides the
configuration map (which is modelled as an already parsed `Config`). -/
structure ExecuteRequest where
  dryRun : Bool
  context : ReleaseContext

/-- The SDK's `plugin.ExecuteResponse` together with the output map `Execute` builds. -/
structure ExecuteResponse where
  success : Bool
  message : String
  registry : String
  repository : String
  tags : List String
  pushedImages : List String
deriving DecidableEq, Repr

/-- The image path: `repository/image` when a repository namespace is
configured, else just `image`. -/
def imagePath (cfg : Config) : String :=
  if cfg.repository ≠ "" then cfg.repository ++ "/" ++ cfg.image else cfg.image

/-- The fully qualified target reference `host/path:tag`. -/
def targetImage (cfg : Config) (registryURL tag : String) : String :=
  registryURL ++ "/" ++ imagePath cfg ++ ":" ++ tag

/-- Prepend a pushed image to the result of the remaining iterations. -/
def addImg (target : String) : Except String (List String) → Except String (List String)
  | Except.ok imgs => Except.ok (target :: imgs)
  | Except.error e => Except.error e

/-- The per-tag loop of `Execute`: skip empty tags; in dry-run mode record no
invocation; otherwise invoke docker tag then docker push, aborting with an
error at the first failing invocation.  Returns the invocation trace and
either the pushed-image list or the first error. -/
def pushLoop (env : ExecEnv) (cfg : Config) (url : String) :
    List String → List Event × Except String (List String)
  | [] => ([], Except.ok [])
  | tag :: rest =>
    if tag = "" then pushLoop env cfg url rest
    else
      if cfg.dryRun then
        let r := pushLoop env cfg url rest
        (r.1, addImg (targetImage cfg url tag) r.2)
      else
        if env.tagOk cfg.sourceImage (targetImage cfg url tag) then
          if env.pushOk (targetImage cfg url tag) then
            let r := pushLoop env cfg url rest
            (Event.tagCmd cfg.sourceImage (targetImage cfg url tag)
                :: Event.pushCmd (targetImage cfg url tag) :: r.1,
             addImg (targetImage cfg url tag) r.2)
          else
            ([Event.tagCmd cfg.sourceImage (targetImage cfg url tag),
              Event.pushCmd (targetImage cfg url tag)],
             Except.error "failed to push image")
        else
          ([Event.tagCmd cfg.sourceImage (targetImage cfg url tag)],
           Except.error "failed to tag image")

/-- Build the success response from the loop's outcome. -/
def mkResponse (url repo : String) (tags : List String) :
    Except String (List String) → Except String ExecuteResponse
  | Except.ok imgs =>
    Except.ok { success := true
                message := "Successfully pushed " ++ toString imgs.length ++ " image(s) to ACR"
                registry := url
                repository := repo
                tags := tags
                pushedImages := imgs }
  | Except.error e => Except.error e

/-- From `plugin.go`, `Execute`: merge the dry-run flags, resolve the tag
templates, resolve the registry host, authenticate unless dry-run is active,
then run the per-tag loop.  Returns the full external-invocation trace
together with the response or the first error. -/
def Execute (env : ExecEnv) (cfg0 : Config) (req : ExecuteRequest) :
    List Event × Except String ExecuteResponse :=
  let cfg : Config := { cfg0 with dryRun := cfg0.dryRun || req.dryRun }
  let tags := processTags cfg.tags req.context
  let url := GetRegistryURL cfg.registry
  if cfg.dryRun then
    let r := pushLoop env cfg url tags
    (r.1, mkResponse url cfg.repository tags r.2)
  else if env.authOk then
    let r := pushLoop env cfg url tags
    (Event.auth :: r.1, mkResponse url cfg.repository tags r.2)
  else
    ([Event.auth], Except.error "failed to authenticate with ACR")

/-- Whether the environment makes the given invocation fail. -/
def failsB (env : ExecEnv) : Event → Bool
  | Event.auth => !env.authOk
  | Event.tagCmd s t => !env.tagOk s t
  | Event.pushCmd t => !env.pushOk t

/-- Whether an `Except` result is an error. -/
def isErrorE {α : Type} : Except String α → Bool
  | Except.error _ => true
  | Except.ok _ => false

/-- The target of a docker-tag invocation, if the event is one. -/
def eventTagTarget : Event → Option String
  | Event.tagCmd _ t => some t
  | _ => none

theorem addImg_isError (target : String) (r : Except String (List String)) :
    isErrorE (addImg target r) = isErrorE r := by
  cases r <;> rfl

theorem mkResponse_isError (url repo : String) (tags : List String)
    (r : Except String (List String)) :
    isErrorE (mkResponse url repo tags r) = isErrorE r := by
  cases r <;> rfl

theorem pushLoop_dryRun (env : ExecEnv) (cfg : Config) (url : String)
    (h : cfg.dryRun = true) (ts : List String) :
    pushLoop env cfg url ts
      = ([], Except.ok ((ts.filter (fun t => decide (t ≠ ""))).map (targetImage cfg url))) := by
  induction ts with
  | nil => rfl
  | cons t rest ih =>
    by_cases ht : t = ""
    · simp [pushLoop, ht, ih]
    · simp [pushLoop, ht, h, ih, addImg]

theorem pushLoop_failfast (env : ExecEnv) (cfg : Config) (url : String)
    (hdr : cfg.dryRun = false) (ts : List String) :
    ∀ tr₁ e tr₂, (pushLoop env cfg url ts).1 = tr₁ ++ e :: tr₂ →
      failsB env e = true →
      tr₂ = [] ∧ isErrorE (pushLoop env cfg url ts).2 = true := by
  induction ts with
  | nil =>
    intro tr₁ e tr₂ h _
    simp only [pushLoop] at h
    exact absurd h.symm (List.append_ne_nil_of_right_ne_nil _ (List.cons_ne_nil _ _))
  | cons t rest ih =>
    intro tr₁ e tr₂ h hf
    by_cases ht : t = ""
    · rw [show pushLoop env cfg url (t :: rest) = pushLoop env cfg url rest from by
        simp [pushLoop, ht]] at h ⊢
      exact ih tr₁ e tr₂ h hf
    · by_cases htag : env.tagOk cfg.sourceImage (targetImage cfg url t) = true
      · by_cases hpush : env.pushOk (targetImage cfg url t) = true
        · rw [show pushLoop env cfg url (t :: rest)
              = (Event.tagCmd cfg.sourceImage (targetImage cfg url t)
                  :: Event.pushCmd (targetImage cfg url t) :: (pushLoop env cfg url rest).1,
                 addImg (targetImage cfg url t) (pushLoop env cfg url rest).2) from by
            simp [pushLoop, ht, hdr, htag, hpush]] at h ⊢
          match tr₁, h with
          | [], h =>
            have he : e = Event.tagCmd cfg.sourceImage (targetImage cfg url t) :=
              (List.cons.inj h.symm).1
            rw [he] at hf
            simp [failsB, htag] at hf
          | [x], h =>
            have he : e = Event.pushCmd (targetImage cfg url t) :=
              (List.cons.inj ((List.cons.inj h.symm).2)).1
            rw [he] at hf
            simp [failsB, hpush] at hf
          | x :: y :: tr₁', h =>
            have h' : (pushLoop env cfg url rest).1 = tr₁' ++ e :: tr₂ :=
              ((List.cons.inj ((List.cons.inj h).2)).2)
            have := ih tr₁' e tr₂ h' hf
            exact ⟨this.1, by rw [addImg_isError]; exact this.2⟩
        · rw [show pushLoop env cfg url (t :: rest)
              = ([Event.tagCmd cfg.sourceImage (targetImage cfg url t),
                  Event.pushCmd (targetImage cfg url t)],
                 Except.error "failed to push image") from by
            simp [pushLoop, ht, hdr, htag, hpush]] at h ⊢
          match tr₁, h with
          | [], h =>
            have he : e = Event.tagCmd cfg.sourceImage (targetImage cfg url t) :=
              (List.cons.inj h.symm).1
            rw [he] at hf
            simp [failsB, htag] at hf
          | [x], h =>
            refine ⟨((List.cons.inj ((List.cons.inj h).2)).2).symm, rfl⟩
          | x :: y :: tr₁', h =>
            exact absurd ((List.cons.inj ((List.cons.inj h).2)).2).symm
              (List.append_ne_nil_of_right_ne_nil _ (List.cons_ne_nil _ _))
      · rw [show pushLoop env cfg url (t :: rest)
            = ([Event.tagCmd cfg.sourceImage (targetImage cfg url t)],
               Except.error "failed to tag image") from by
          simp [pushLoop, ht, hdr, htag]] at h ⊢
        match tr₁, h with
        | [], h =>
          refine ⟨((List.cons.inj h).2).symm, rfl⟩
        | x :: tr₁', h =>
          exact absurd ((List.cons.inj h).2).symm
            (List.append_ne_nil_of_right_ne_nil _ (List.cons_ne_nil _ _))

theorem pushLoop_targets (env : ExecEnv) (cfg : Config) (url : String)
    (hdr : cfg.dryRun = false) (ts : List String) :
    ((pushLoop env cfg url ts).1.filterMap eventTagTarget)
      <+: ((ts.filter (fun t => decide (t ≠ ""))).map (targetImage cfg url)) := by
  induction ts with
  | nil => exact ⟨[], rfl⟩
  | cons t rest ih =>
    by_cases ht : t = ""
    · simpa [pushLoop, ht] using ih
    · by_cases htag : env.tagOk cfg.sourceImage (targetImage cfg url t) = true
      · by_cases hpush : env.pushOk (targetImage cfg url t) = true
        · obtain ⟨r, hr⟩ := ih
          refine ⟨r, ?_⟩
          rw [show pushLoop env cfg url (t :: rest)
              = (Event.tagCmd cfg.sourceImage (targetImage cfg url t)
                  :: Event.pushCmd (targetImage cfg url t) :: (pushLoop env cfg url rest).1,
                 addImg (targetImage cfg url t) (pushLoop env cfg url rest).2) from by
            simp [pushLoop, ht, hdr, htag, hpush]]
          simp [eventTagTarget, ht, hr]
        · refine ⟨((rest.filter (fun t => decide (t ≠ ""))).map (targetImage cfg url)), ?_⟩
          simp [pushLoop, ht, hdr, htag, hpush, eventTagTarget]
      · refine ⟨((rest.filter (fun t => decide (t ≠ ""))).map (targetImage cfg url)), ?_⟩
        simp [pushLoop, ht, hdr, htag, eventTagTarget]

/-- Claim C2: when either dry-run flag is set, `Execute` performs no external
invocation at all (empty trace: no authentication, no tag command, no push
command) and returns a successful response whose pushed-images list holds the
target reference of every resolved tag. -/
theorem execute_dry_run_no_invocations (env : ExecEnv) (cfg : Config) (req : ExecuteRequest)
    (h : (cfg.dryRun || req.dryRun) = true) :
    (Execute env cfg req).1 = [] ∧
    ∃ resp, (Execute env cfg req).2 = Except.ok resp ∧ resp.success = true ∧
      resp.pushedImages
        = (processTags cfg.tags req.context).map
            (targetImage cfg (GetRegistryURL cfg.registry)) := by
  have hd : ({ cfg with dryRun := cfg.dryRun || req.dryRun } : Config).dryRun = true := h
  have hmain : Execute env cfg req
      = ([], Except.ok
          { success := true
            message := "Successfully pushed "
              ++ toString ((processTags cfg.tags req.context).map
                   (targetImage cfg (GetRegistryURL cfg.registry))).length
              ++ " image(s) to ACR"
            registry := GetRegistryURL cfg.registry
            repository := cfg.repository
            tags := processTags cfg.tags req.context
            pushedImages := (processTags cfg.tags req.context).map
              (targetImage cfg (GetRegistryURL cfg.registry)) }) := by
    simp only [Execute]
    rw [if_pos h]
    rw [pushLoop_dryRun env { cfg with dryRun := cfg.dryRun || req.dryRun }
      (GetRegistryURL cfg.registry) hd (processTags cfg.tags req.context)]
    rw [processTags_no_empty]
    rfl
  rw [hmain]
  exact ⟨rfl, _, rfl, rfl, rfl⟩

/-- Claim C1: with dry-run disabled, `Execute` processes the resolved tags
strictly in input order and aborts at the first failing external invocation:
any failing invocation in the trace is the last one and the result is an
error (so a failing tag invocation is never followed by its push, and no
invocation for a later tag follows any failure), and the docker-tag targets
attempted form a prefix, in order, of the resolved target-reference list. -/
theorem execute_fail_fast (env : ExecEnv) (cfg : Config) (req : ExecuteRequest)
    (h : (cfg.dryRun || req.dryRun) = false) :
    (∀ tr₁ e tr₂, (Execute env cfg req).1 = tr₁ ++ e :: tr₂ → failsB env e = true →
        tr₂ = [] ∧ isErrorE (Execute env cfg req).2 = true) ∧
    ((Execute env cfg req).1.filterMap eventTagTarget)
      <+: ((processTags cfg.tags req.context).map
            (targetImage cfg (GetRegistryURL cfg.registry))) := by
  have hd : ({ cfg with dryRun := cfg.dryRun || req.dryRun } : Config).dryRun = false := h
  by_cases ha : env.authOk = true
  · have hmain : Execute env cfg req
        = (Event.auth :: (pushLoop env { cfg with dryRun := cfg.dryRun || req.dryRun }
            (GetRegistryURL cfg.registry) (processTags cfg.tags req.context)).1,
           mkResponse (GetRegistryURL cfg.registry) cfg.repository
            (processTags cfg.tags req.context)
            (pushLoop env { cfg with dryRun := cfg.dryRun || req.dryRun }
              (GetRegistryURL cfg.registry) (processTags cfg.tags req.context)).2) := by
      simp only [Execute]
      rw [if_neg (by simp [h]), if_pos ha]
    constructor
    · intro tr₁ e tr₂ heq hf
      rw [hmain] at heq ⊢
      match tr₁, heq with
      | [], heq =>
        have he : e = Event.auth := (List.cons.inj heq).1.symm
        rw [he] at hf
        simp [failsB, ha] at hf
      | x :: tr₁', heq =>
        have h' := (List.cons.inj heq).2
        have := pushLoop_failfast env { cfg with dryRun := cfg.dryRun || req.dryRun }
          (GetRegistryURL cfg.registry) hd (processTags cfg.tags req.context)
          tr₁' e tr₂ h' hf
        exact ⟨this.1, by rw [mkResponse_isError]; exact this.2⟩
    · rw [hmain]
      have hp := pushLoop_targets env { cfg with dryRun := cfg.dryRun || req.dryRun }
        (GetRegistryURL cfg.registry) hd (processTags cfg.tags req.context)
      rw [processTags_no_empty] at hp
      simpa [eventTagTarget] using hp
  · have hmain : Execute env cfg req = ([Event.auth], Except.error "failed to authenticate with ACR") := by
      simp only [Execute]
      rw [if_neg (by simp [h]), if_neg ha]
    constructor
    · intro tr₁ e tr₂ heq hf
      rw [hmain] at heq ⊢
      match tr₁, heq with
      | [], heq => exact ⟨((List.cons.inj heq).2).symm, rfl⟩
      | x :: tr₁', heq =>
        exact absurd ((List.cons.inj heq).2).symm
          (List.append_ne_nil_of_right_ne_nil _ (List.cons_ne_nil _ _))
    · rw [hmain]
      exact ⟨_, rfl⟩

/-- A concrete release context for the witnesses. -/
def ctxW : ReleaseContext := ⟨"1.0.0", "", "", "", ""⟩

/-- A concrete parsed configuration (dry-run disabled) for the witnesses. -/
def cfgW : Config :=
  { registry := "myregistry", repository := "", image := "myapp",
    authMethod := "azure_cli", clientID := "", clientSecret := "", tenantID := "",
    username := "", password := "", sourceImage := "myapp:latest",
    tags := ["latest"], dryRun := false }

/-- A concrete request with dry-run disabled. -/
def reqW : ExecuteRequest := { dryRun := false, context := ctxW }

/-- A concrete request with dry-run enabled. -/
def reqDryW : ExecuteRequest := { dryRun := true, context := ctxW }

/-- All-success invocation outcomes for the witnesses. -/
def envW : ExecEnv := { authOk := true, tagOk := fun _ _ => true, pushOk := fun _ => true }

/-- Witness for C1 at a concrete configuration, request and environment. -/
theorem execute_fail_fast_witness :
    (cfgW.dryRun || reqW.dryRun) = false ∧
    ((∀ tr₁ e tr₂, (Execute envW cfgW reqW).1 = tr₁ ++ e :: tr₂ → failsB envW e = true →
        tr₂ = [] ∧ isErrorE (Execute envW cfgW reqW).2 = true) ∧
     ((Execute envW cfgW reqW).1.filterMap eventTagTarget)
       <+: ((processTags cfgW.tags reqW.context).map
             (targetImage cfgW (GetRegistryURL cfgW.registry)))) :=
  ⟨by decide, execute_fail_fast envW cfgW reqW (by decide)⟩

/-- Witness for C2: the request's dry-run flag alone suppresses everything. -/
theorem execute_dry_run_no_invocations_witness :
    (cfgW.dryRun || reqDryW.dryRun) = true ∧
    ((Execute envW cfgW reqDryW).1 = [] ∧
     ∃ resp, (Execute envW cfgW reqDryW).2 = Except.ok resp ∧ resp.success = true ∧
       resp.pushedImages
         = (processTags cfgW.tags reqDryW.context).map
             (targetImage cfgW (GetRegistryURL cfgW.registry))) :=
  ⟨by decide, execute_dry_run_no_invocations envW cfgW reqDryW (by decide)⟩

end ACR
